import Mathlib

/-!
Verification of the Verus-Commons data-aggregation and featured-selection
pipeline, shallowly embedded from the TypeScript sources
(`src/lib/projects.ts`, `src/lib/github.ts`, `src/lib/validation.ts`).

Conventions of the embedding:
* JavaScript numbers that only ever hold integers are modelled as `Nat` or
  `Int`; 32-bit truncation (`| 0`, `& x`, `Math.imul`, `>>> 0`) is modelled
  explicitly with `% 4294967296` on bit patterns (signed values via `toInt32`).
* Filesystem and network effects are modelled as explicit oracle parameters.
* Fallible JS code (thrown exceptions, rejected promises) is modelled with
  `Except`.
-/

namespace VerusCommons

/-! ### JavaScript 32-bit arithmetic -/

/-- `2^32`, the modulus of JavaScript 32-bit bitwise coercions. -/
def two32 : Nat := 4294967296

/-- JS `ToInt32`: coerce an integer to the signed 32-bit range, as performed by
`| 0`, `x & x` and the implicit coercions of `<<`. -/
def toInt32 (n : Int) : Int := (n + 2147483648) % 4294967296 - 2147483648

/-! ### Source: `seededRandom` (mulberry32), `src/lib/projects.ts`

```
function seededRandom(seed: number): () => number {
  return function() {
    let t = seed += 0x6D2B79F5;
    t = Math.imul(t ^ t >>> 15, t | 1);
    t ^= t + Math.imul(t ^ t >>> 7, t | 61);
    return ((t ^ t >>> 14) >>> 0) / 4294967296;
  };
}
```

All bitwise operators in JS act on the 32-bit bit pattern of their operands
(`value mod 2^32`); we therefore track the state as a `Nat` and reduce mod
`2^32` exactly where the JS semantics does. -/

/-- The mixing rounds of one mulberry32 call, mapping the (unbounded) state to
the 32-bit unsigned output `(t ^ t >>> 14) >>> 0`. -/
def mulberryMix (x : Nat) : Nat :=
  let t0 := x % 4294967296
  let t1 := ((t0 ^^^ (t0 >>> 15)) * (t0 ||| 1)) % 4294967296
  let t2 := t1 ^^^ ((t1 + ((t1 ^^^ (t1 >>> 7)) * (t1 ||| 61)) % 4294967296) % 4294967296)
  t2 ^^^ (t2 >>> 14)

/-- One call of the closure returned by `seededRandom`: the state advances by
`0x6D2B79F5` (a JS double addition, exact in the integer range used here), and
the 32-bit output is produced by `mulberryMix`.  The JS function returns
`output / 2^32 ∈ [0,1)`; we keep the integer numerator. -/
def seededRandomNext (s : Nat) : Nat × Nat :=
  let s2 := s + 0x6D2B79F5
  (mulberryMix s2, s2)

/-! ### Source: `seededShuffle` (Fisher–Yates), `src/lib/projects.ts`

```
function seededShuffle<T>(array: T[], seed: number): T[] {
  const result = [...array];
  const random = seededRandom(seed);
  for (let i = result.length - 1; i > 0; i--) {
    const j = Math.floor(random() * (i + 1));
    [result[i], result[j]] = [result[j], result[i]];
  }
  return result;
}
```
-/

/-- Swap the elements at positions `i` and `j` of a list (the JS destructuring
swap `[r[i], r[j]] = [r[j], r[i]]`); out-of-range indices leave the list
unchanged (they never occur in the shuffle loop). -/
def listSwap (l : List α) (i j : Nat) : List α :=
  match l[i]?, l[j]? with
  | some a, some b => (l.set i b).set j a
  | _, _ => l

/-- The shuffle loop.  The first argument is the loop index `i` (counting down
to `0`, where the loop stops); `Math.floor(random() * (i + 1))` is computed
exactly as `output * (i + 1) / 2^32` in integer arithmetic (the JS double
products involved are exact; see `floor_random_scale_eq`). -/
def fyLoop : Nat → List α → Nat → List α
  | 0, l, _ => l
  | i + 1, l, s =>
    let r := seededRandomNext s
    let j := r.1 * (i + 2) / 4294967296
    fyLoop i (listSwap l (i + 1) j) r.2

/-- Source: `seededShuffle` — copy the array and run the Fisher–Yates loop from
index `length - 1` down to `1`. -/
def seededShuffle (l : List α) (seed : Nat) : List α :=
  fyLoop (l.length - 1) l seed

/-! ### Source: `getDailySeed`, `src/lib/projects.ts`

```
function getDailySeed(): number {
  const now = new Date();
  const dateString = `${now.getUTCFullYear()}-${now.getUTCMonth()}-${now.getUTCDate()}`;
  let hash = 0;
  for (let i = 0; i < dateString.length; i++) {
    const char = dateString.charCodeAt(i);
    hash = ((hash << 5) - hash) + char;
    hash = hash & hash;
  }
  return Math.abs(hash);
}
```

The current UTC date is an ambient input; we parameterise by the components
`(year, zero-based month, day)` that `getUTCFullYear/getUTCMonth/getUTCDate`
return. -/

/-- One step of the rolling hash: `hash = ((hash << 5) - hash) + char` followed
by the truncation `hash = hash & hash`.  In JS `hash << 5` itself coerces to
32 bits, hence the inner `toInt32`. -/
def hashStep (hash : Int) (c : Nat) : Int :=
  toInt32 (toInt32 (hash * 32) - hash + c)

/-- The rolling hash of a string, given as its list of UTF-16 code units. -/
def dateHash (cs : List Nat) : Int := cs.foldl hashStep 0

/-- The code units of the template string `` `${year}-${month}-${day}` `` for
the numeric date components (month is zero-based, as `getUTCMonth` returns). -/
def dateString (y m d : Nat) : List Nat :=
  (toString y ++ "-" ++ toString m ++ "-" ++ toString d).data.map Char.toNat

/-- Source: `getDailySeed` for the UTC date `(y, m, d)` (`m` zero-based):
the absolute value of the rolling hash of the formatted date string. -/
def getDailySeed (y m d : Nat) : Nat := (dateHash (dateString y m d)).natAbs

/-! ### Specification-side formulations (for the refinement claim C1)

These definitions follow the wording of the specification, not the source:
the rolling hash truncates once per character via `| 0`; mulberry32 keeps a
32-bit state; the shuffle draws `j = floor(random() * (i + 1))` as a real
(rational) floor.  The theorems below prove them equal to the source
embeddings. -/

/-- Spec formulation of the hash step: `hash = ((hash << 5) - hash + charCode) | 0`
with one 32-bit wraparound per character. -/
def specHashStep (hash : Int) (c : Nat) : Int :=
  toInt32 (hash * 32 - hash + c)

/-- Spec formulation of the rolling hash over the date string. -/
def specDateHash (cs : List Nat) : Int := cs.foldl specHashStep 0

/-- Spec formulation of the daily seed: absolute value of the 32-bit rolling
hash of the formatted UTC date string. -/
def specDailySeed (y m d : Nat) : Nat := (specDateHash (dateString y m d)).natAbs

/-- Spec formulation of one mulberry32 call, with the canonical 32-bit state
(`state advances by adding 0x6D2B79F5` in 32-bit arithmetic). -/
def specMulberryNext (s : Nat) : Nat × Nat :=
  let s2 := (s + 0x6D2B79F5) % 4294967296
  (mulberryMix s2, s2)

/-- Spec formulation of a draw: `floor(random() * n)` where `random()` is the
32-bit output `t` normalized to `[0,1)` by dividing by `2^32`, computed as an
exact rational floor. -/
def specDraw (t n : Nat) : Nat := Nat.floor ((t : ℚ) / 4294967296 * (n : ℚ))

/-- The Fisher-Yates loop scheme, generic in the pseudo-random generator
`next` (state transformer returning output and new state) and in how a draw
`j = floor(random() * (i + 1))` is computed from the output: for index `i`
from `length - 1` down to `1`, draw `j` and swap positions `i` and `j`. -/
def fyLoopWith (next : Nat → Nat × Nat) (draw : Nat → Nat → Nat) :
    Nat → List α → Nat → List α
  | 0, l, _ => l
  | i + 1, l, s =>
      fyLoopWith next draw i
        (listSwap l (i + 1) (draw (next s).1 (i + 2))) (next s).2

/-- Spec formulation of the Fisher-Yates loop: the loop scheme instantiated
with the canonical 32-bit mulberry32 generator and the rational-floor draw. -/
def specFyLoop (n : Nat) (l : List α) (s : Nat) : List α :=
  fyLoopWith specMulberryNext specDraw n l s

/-- Spec formulation of the seeded shuffle. -/
def specShuffle (l : List α) (seed : Nat) : List α :=
  specFyLoop (l.length - 1) l seed

/-- The `k`-th value produced by repeatedly calling a stateful generator. -/
def randStream (next : Nat → Nat × Nat) (s : Nat) : Nat → Nat
  | 0 => (next s).1
  | k + 1 => randStream next (next s).2 k

/-! ### Data model (`src/types/project.ts`)

`GitHubData`, `ProjectYAML` and `Project` mirror the TypeScript interfaces;
optional TS fields become `Option`.  `Project extends ProjectYAML` with
`maintainer` overridden to a required string; the aggregator additionally
overwrites `logo` and `screenshots` with auto-detected values and adds
`github`. -/

structure GitHubData where
  stars : Nat
  forks : Nat
  lastCommit : String
  license : Option String
  languages : List String
deriving Repr, DecidableEq

structure ProjectYAML where
  name : String
  slug : String
  description : String
  longDescription : String
  category : String
  repo : String
  verusFeatures : List String
  maintainer : Option String
  liveUrl : Option String
  docsUrl : Option String
  logo : Option String
  screenshots : Option (List String)
deriving Repr, DecidableEq

structure Project where
  name : String
  slug : String
  description : String
  longDescription : String
  category : String
  repo : String
  verusFeatures : List String
  liveUrl : Option String
  docsUrl : Option String
  maintainer : String
  logo : Option String
  screenshots : List String
  github : Option GitHubData
deriving Repr, DecidableEq

/-! ### Source: `parseGitHubUrl`, `src/lib/github.ts`

```
export function parseGitHubUrl(url: string): { owner: string; repo: string } | null {
  const match = url.match(/github\.com\/([^/]+)\/([^/]+)/);
  if (!match) return null;
  return { owner: match[1], repo: match[2].replace(/\.git$/, '') };
}
```

The regex search is embedded directly: the pattern (a literal `github.com/`,
then one-or-more non-slash characters, `/`, one-or-more non-slash characters)
is tried at each start position from the left; the first position where the
whole pattern matches wins. -/

/-- Try to match `github.com/([^/]+)/([^/]+)` at the start of `cs`. -/
def matchGitHubAt (cs : List Char) : Option (String × String) :=
  if "github.com/".data.isPrefixOf cs then
    let rest := cs.drop 11
    let owner := rest.takeWhile (fun c => c ≠ '/')
    if owner.isEmpty then none
    else
      match rest.drop owner.length with
      | '/' :: rest2 =>
        let repoSeg := rest2.takeWhile (fun c => c ≠ '/')
        if repoSeg.isEmpty then none
        else some (String.mk owner, String.mk repoSeg)
      | _ => none
  else none

/-- Scan left to right for the first position where the pattern matches. -/
def searchGitHub : List Char → Option (String × String)
  | [] => none
  | c :: cs =>
    match matchGitHubAt (c :: cs) with
    | some r => some r
    | none => searchGitHub cs

/-- The replacement `repo.replace(/\.git$/, '')`: drop one trailing `.git`. -/
def stripDotGit (r : String) : String :=
  if ".git".data.isSuffixOf r.data then String.mk (r.data.take (r.data.length - 4)) else r

/-- Source: `parseGitHubUrl`. -/
def parseGitHubUrl (url : String) : Option (String × String) :=
  (searchGitHub url.data).map (fun p => (p.1, stripDotGit p.2))

/-! ### Featured selection (`src/lib/projects.ts`)

```
const FEATURED_ELIGIBLE_CATEGORIES = ['app', 'wallet', 'dashboard'];
...
export async function getFeaturedProjects(): Promise<Project[]> {
  const allProjects = await getAllProjects();
  const eligible = allProjects.filter((project) =>
    FEATURED_ELIGIBLE_CATEGORIES.includes(project.category) &&
    hasFeaturedImage(project.slug)
  );
  if (eligible.length === 0) return [];
  const seed = getDailySeed();
  const shuffled = seededShuffle(eligible, seed);
  return shuffled.slice(0, 3);
}
```

`hasFeaturedImage` probes the filesystem (`featured.png` / `featured.jpg` in
the project's image folder), so it is modelled as a boolean oracle `hasImg` on
slugs; the aggregated collection and the current UTC date components are
likewise parameters. -/

def FEATURED_ELIGIBLE_CATEGORIES : List String := ["app", "wallet", "dashboard"]

/-- The filter predicate of `getFeaturedProjects`. -/
def isFeaturedEligible (hasImg : String → Bool) (p : Project) : Bool :=
  FEATURED_ELIGIBLE_CATEGORIES.contains p.category && hasImg p.slug

/-- Source: `getFeaturedProjects`, for a given aggregated collection
`allProjects`, featured-image oracle `hasImg` and UTC date `(y, m, d)`. -/
def getFeaturedProjects (allProjects : List Project) (hasImg : String → Bool)
    (y m d : Nat) : List Project :=
  let eligible := allProjects.filter (isFeaturedEligible hasImg)
  if eligible.isEmpty then []
  else (seededShuffle eligible (getDailySeed y m d)).take 3

/-! ### Source: `fetchGitHubData`, `src/lib/github.ts`

```
export async function fetchGitHubData(repoUrl: string): Promise<GitHubData | null> {
  const parsed = parseGitHubUrl(repoUrl);
  if (!parsed) return null;
  const { owner, repo } = parsed;
  const headers = getGitHubHeaders();
  try {
    const [repoRes, languagesRes] = await Promise.all([
      fetch(`https://api.github.com/repos/.../`, ...),
      fetch(`https://api.github.com/repos/.../languages`, ...),
    ]);
    checkRateLimit(repoRes, ...);
    if (!repoRes.ok) {
      if (repoRes.status === 403 || repoRes.status === 429) { return null; }
      if (repoRes.status === 404) { console.warn(...); return null; }
      return null;
    }
    const repoData = await repoRes.json();
    const languagesData = languagesRes.ok ? await languagesRes.json() : {};
    return {
      stars: repoData.stargazers_count || 0,
      forks: repoData.forks_count || 0,
      lastCommit: repoData.pushed_at || '',
      license: repoData.license?.spdx_id || null,
      languages: Object.keys(languagesData),
    };
  } catch (error) { console.error(...); return null; }
}
```

The network is modelled by a `FetchWorld`: the outcome of each of the two
concurrent requests is either a rejected promise (`Except.error`, e.g. a
network failure) or an HTTP response carrying `ok`, `status` and a body whose
JSON parse (`res.json()`) either succeeds or throws.  `getGitHubHeaders` and
`checkRateLimit` only build headers / emit diagnostics and do not influence the
returned value, so they have no counterpart in the embedding. -/

instance {ε α : Type} [DecidableEq ε] [DecidableEq α] : DecidableEq (Except ε α) := fun a b =>
  match a, b with
  | .error e, .error f =>
    if h : e = f then isTrue (by rw [h]) else isFalse (by simp [h])
  | .ok x, .ok y =>
    if h : x = y then isTrue (by rw [h]) else isFalse (by simp [h])
  | .error _, .ok _ => isFalse (by simp)
  | .ok _, .error _ => isFalse (by simp)

/-- The fields of the repository-summary JSON body that the code reads.
`license_spdx` models the access path `license?.spdx_id`: `none` when
`license` is null/absent or has no `spdx_id`. -/
structure RepoJson where
  stargazers_count : Option Nat
  forks_count : Option Nat
  pushed_at : Option String
  license_spdx : Option String
deriving Repr, DecidableEq

structure RepoResponse where
  ok : Bool
  status : Nat
  body : Except Unit RepoJson
deriving Repr, DecidableEq

structure LangResponse where
  ok : Bool
  body : Except Unit (List String)
deriving Repr, DecidableEq

/-- The outcomes of the two concurrent requests issued for one repository. -/
structure FetchWorld where
  repoReq : Except Unit RepoResponse
  langReq : Except Unit LangResponse
deriving Repr, DecidableEq

/-- JS `x || null` on a nullable string: the empty string is falsy. -/
def jsOrNullStr (x : Option String) : Option String :=
  match x with
  | some s => if s = "" then none else some s
  | none => none

/-- The body of the `try` block: `Except.error` is a thrown/rejected state
that the surrounding `catch` will turn into `null`.  `Promise.all` rejects if
either request rejects; `res.json()` throws on a malformed body; the language
body is only awaited when `languagesRes.ok`. -/
def fetchGitHubBody (w : FetchWorld) : Except Unit (Option GitHubData) :=
  match w.repoReq, w.langReq with
  | .error e, _ => .error e
  | .ok _, .error e => .error e
  | .ok repoRes, .ok langRes =>
    if repoRes.ok = false then
      if repoRes.status = 403 ∨ repoRes.status = 429 then .ok none
      else if repoRes.status = 404 then .ok none
      else .ok none
    else
      match repoRes.body with
      | .error e => .error e
      | .ok repoData =>
        match (if langRes.ok then langRes.body else .ok []) with
        | .error e => .error e
        | .ok languagesData =>
          .ok (some
            { stars := repoData.stargazers_count.getD 0
              forks := repoData.forks_count.getD 0
              lastCommit := repoData.pushed_at.getD ""
              license := jsOrNullStr repoData.license_spdx
              languages := languagesData })

/-- Source: `fetchGitHubData` with its exception channel made explicit: an
`Except.error` result would be an exception escaping to the caller.  The URL
parse happens before the `try`; the `catch` clause logs and returns `null`. -/
def fetchGitHubDataE (url : String) (w : FetchWorld) : Except Unit (Option GitHubData) :=
  match parseGitHubUrl url with
  | none => .ok none
  | some _ =>
    match fetchGitHubBody w with
    | .ok v => .ok v
    | .error _ => .ok none

/-- Source: `fetchGitHubData` — the value the caller receives. -/
def fetchGitHubData (url : String) (w : FetchWorld) : Option GitHubData :=
  match parseGitHubUrl url with
  | none => none
  | some _ =>
    match fetchGitHubBody w with
    | .ok v => v
    | .error _ => none

/-! ### Source: `getAllProjects`, `src/lib/projects.ts`

```
export async function getAllProjects(): Promise<Project[]> {
  if (!fs.existsSync(PROJECTS_DIR)) return [];
  const files = fs.readdirSync(PROJECTS_DIR).filter((f) => f.endsWith('.yaml') && !f.startsWith('_'));
  const projects = await Promise.all(
    files.map(async (file) => {
      const content = fs.readFileSync(path.join(PROJECTS_DIR, file), 'utf-8');
      const yaml = parse(content) as ProjectYAML;
      const github = await fetchGitHubData(yaml.repo);
      const parsedRepo = parseGitHubUrl(yaml.repo);
      const maintainer = yaml.maintainer || parsedRepo?.owner || 'Unknown';
      const logo = getProjectLogo(yaml.slug);
      const screenshots = getProjectScreenshots(yaml.slug);
      return { ...yaml, maintainer, logo, screenshots, github } as Project;
    })
  );
  return projects;
}
```

The store is modelled as the list of parsed records in directory-listing
order (after the `.yaml` / template-underscore filtering); the filesystem
probes `getProjectLogo` / `getProjectScreenshots` and the network are oracles.
`Promise.all` over `files.map` preserves the input order and produces exactly
one element per input. -/

/-- JS `a || b` on strings: the empty string is falsy. -/
def jsOrS (a b : String) : String := if a = "" then b else a

/-- The maintainer resolution `yaml.maintainer || parsedRepo?.owner || 'Unknown'`
(an absent optional behaves like the empty string: both are falsy). -/
def resolveMaintainer (y : ProjectYAML) : String :=
  jsOrS (y.maintainer.getD "")
    (jsOrS ((parseGitHubUrl y.repo).map Prod.fst |>.getD "") "Unknown")

/-- The body of the `files.map` callback: build one `Project` from one parsed
record, consulting the network world `net` (per repository URL) and the
filesystem oracles `logoOf` / `shotsOf` (per slug). -/
def mkProject (net : String → FetchWorld) (logoOf : String → Option String)
    (shotsOf : String → List String) (y : ProjectYAML) : Project :=
  { name := y.name
    slug := y.slug
    description := y.description
    longDescription := y.longDescription
    category := y.category
    repo := y.repo
    verusFeatures := y.verusFeatures
    liveUrl := y.liveUrl
    docsUrl := y.docsUrl
    maintainer := resolveMaintainer y
    logo := logoOf y.slug
    screenshots := shotsOf y.slug
    github := fetchGitHubData y.repo (net y.repo) }

/-- Source: `getAllProjects` for a given record store and oracles. -/
def getAllProjects (records : List ProjectYAML) (net : String → FetchWorld)
    (logoOf : String → Option String) (shotsOf : String → List String) : List Project :=
  records.map (mkProject net logoOf shotsOf)

/-! ### URL validation (`src/lib/validation.ts`)

```
const ALLOWED_PROTOCOLS = ['https:', 'http:'];
const BLOCKED_PATTERNS = [/^javascript:/i, /^data:/i, /^vbscript:/i, /^file:/i, /^about:/i];

export function validateExternalUrl(url: string | undefined | null): string | null {
  if (!url || typeof url !== 'string') { return null; }
  const trimmed = url.trim();
  if (!trimmed) { return null; }
  for (const pattern of BLOCKED_PATTERNS) {
    if (pattern.test(trimmed)) { console.warn(...); return null; }
  }
  try {
    const parsed = new URL(trimmed);
    if (!ALLOWED_PROTOCOLS.includes(parsed.protocol)) { console.warn(...); return null; }
    if (!parsed.hostname) { return null; }
    return trimmed;
  } catch { return null; }
}

export function validateGitHubUrl(url: string | undefined | null): string | null {
  const validated = validateExternalUrl(url);
  if (!validated) { return null; }
  try {
    const parsed = new URL(validated);
    if (parsed.hostname !== 'github.com' && parsed.hostname !== 'www.github.com') { return null; }
    const pathParts = parsed.pathname.split('/').filter(Boolean);
    if (pathParts.length < 2) { return null; }
    return validated;
  } catch { return null; }
}
```
-/

def asciiLower (c : Char) : Char :=
  if 'A' ≤ c && c ≤ 'Z' then Char.ofNat (c.toNat + 32) else c

def lowerStr (s : String) : String := String.mk (s.data.map asciiLower)

/-- The JS `String.prototype.trim` whitespace class (ASCII part; the exotic
Unicode space characters never occur in this repository's data). -/
def isJsWhitespace (c : Char) : Bool :=
  c = ' ' || c = '\t' || c = '\n' || c = '\r' || c = '\x0b' || c = '\x0c'

/-- JS `url.trim()`. -/
def jsTrim (s : String) : String :=
  String.mk (((s.data.dropWhile isJsWhitespace).reverse.dropWhile isJsWhitespace).reverse)

/-- JS `String.prototype.split` with a single-character separator. -/
def splitOnChar (sep : Char) : List Char → List (List Char)
  | [] => [[]]
  | c :: rest =>
    if c = sep then [] :: splitOnChar sep rest
    else
      match splitOnChar sep rest with
      | [] => [[c]]
      | h :: t => (c :: h) :: t

def jsSplitSlash (s : String) : List String :=
  (splitOnChar '/' s.data).map String.mk

def ALLOWED_PROTOCOLS : List String := ["https:", "http:"]

def BLOCKED_PATTERNS : List String :=
  ["javascript:", "data:", "vbscript:", "file:", "about:"]

/-- The loop over `BLOCKED_PATTERNS`: each regex `/^scheme:/i` is a
case-insensitive prefix test. -/
def matchesBlockedPattern (s : String) : Bool :=
  BLOCKED_PATTERNS.any (fun p => p.data.isPrefixOf (lowerStr s).data)

structure URLParts where
  protocol : String
  hostname : String
  pathname : String
deriving Repr, DecidableEq

def isAsciiAlpha (c : Char) : Bool := ('a' ≤ c && c ≤ 'z') || ('A' ≤ c && c ≤ 'Z')

def isSchemeChar (c : Char) : Bool :=
  isAsciiAlpha c || ('0' ≤ c && c ≤ '9') || c = '+' || c = '-' || c = '.'

def specialSchemes : List String := ["http", "https", "ws", "wss", "ftp"]

/-- Modelled platform builtin (not repository code): the WHATWG `new URL(url)`
constructor, restricted to the behavior this code base relies on.  A scheme is
parsed and lowercased; for the special network schemes an authority with a
non-empty host is required (host lowercased, userinfo and port stripped) and
the path runs up to a query or fragment (defaulting to `/`); other schemes
parse opaquely with an empty hostname; a missing scheme fails (`none` models
the thrown TypeError).  WHATWG behaviors this repository never exercises
(percent-encoding, dot-segment normalization, IPv6/IDNA hosts, `file:` URLs —
which are denylisted before parsing) are outside the model. -/
def parseURL (s : String) : Option URLParts :=
  match s.data with
  | [] => none
  | c0 :: rest0 =>
    if isAsciiAlpha c0 = false then none
    else
      let scheme := (c0 :: rest0).takeWhile isSchemeChar
      match (c0 :: rest0).drop scheme.length with
      | ':' :: afterColon =>
        let schemeL := String.mk (scheme.map asciiLower)
        if specialSchemes.contains schemeL then
          let afterSlashes := afterColon.dropWhile (fun c => c = '/' || c = '\\')
          let authority := afterSlashes.takeWhile
            (fun c => c ≠ '/' && c ≠ '?' && c ≠ '#' && c ≠ '\\')
          let afterAt := authority.foldl (fun acc c => if c = '@' then [] else acc ++ [c]) []
          let host := afterAt.takeWhile (fun c => c ≠ ':')
          if host.isEmpty then none
          else
            let afterAuth := afterSlashes.drop authority.length
            let path := afterAuth.takeWhile (fun c => c ≠ '?' && c ≠ '#')
            some { protocol := schemeL ++ ":",
                   hostname := String.mk (host.map asciiLower),
                   pathname := if path.isEmpty then "/" else String.mk path }
        else
          some { protocol := schemeL ++ ":", hostname := "",
                 pathname := String.mk afterColon }
      | _ => none

/-- Source: `validateExternalUrl`.  The TS argument type
`string | undefined | null` becomes `Option String` (`none` covers both
`undefined` and `null`); the guard `!url` additionally rejects the falsy empty
string. -/
def validateExternalUrl (url : Option String) : Option String :=
  match url with
  | none => none
  | some u =>
    if u = "" then none
    else
      let trimmed := jsTrim u
      if trimmed = "" then none
      else if matchesBlockedPattern trimmed then none
      else
        match parseURL trimmed with
        | none => none
        | some parsed =>
          if ALLOWED_PROTOCOLS.contains parsed.protocol = false then none
          else if parsed.hostname = "" then none
          else some trimmed

/-- Source: `validateGitHubUrl`. -/
def validateGitHubUrl (url : Option String) : Option String :=
  match validateExternalUrl url with
  | none => none
  | some validated =>
    match parseURL validated with
    | none => none
    | some parsed =>
      if parsed.hostname ≠ "github.com" ∧ parsed.hostname ≠ "www.github.com" then none
      else
        if ((jsSplitSlash parsed.pathname).filter (fun s => s ≠ "")).length < 2 then none
        else some validated

/-! ### YAML schema validation (`src/lib/validation.ts`, `ProjectYAMLSchema`)

The Zod schema is embedded as an issue collector: for each field of the
object schema, in declaration order, the issues Zod would report (path and
message).  The embedding's input domain is raw records whose present fields
already carry the JS type the schema expects (strings / string arrays), which
covers missing required fields, length and pattern violations, enum
violations, and the URL refinements; Zod's type-mismatch issues for wrongly
typed fields lie outside the model.  String lengths are counted in characters
(the schemas are only applied to plain text where this agrees with JS UTF-16
lengths). -/

def VERUS_FEATURES : List String :=
  ["VerusID", "Currencies", "DeFi", "Cross-chain", "Zero-knowledge privacy",
   "Marketplace", "Data", "PBaaS-chain", "Staking", "Mining"]

def CATEGORIES : List String :=
  ["wallet", "app", "dashboard", "tool", "library", "other"]

def isSlugChar (c : Char) : Bool := ('a' ≤ c && c ≤ 'z') || ('0' ≤ c && c ≤ '9')

/-- The slug pattern `^[a-z0-9]+(?:-[a-z0-9]+)*$`: hyphen-separated non-empty
runs of lowercase alphanumerics. -/
def slugMatches (s : String) : Bool :=
  (splitOnChar '-' s.data).all (fun p => !p.isEmpty && p.all isSlugChar)

/-- One untyped raw record, after YAML decoding.  `none` is a missing field. -/
structure RawProject where
  name : Option String
  slug : Option String
  description : Option String
  longDescription : Option String
  category : Option String
  repo : Option String
  verusFeatures : Option (List String)
  maintainer : Option String
  liveUrl : Option String
  docsUrl : Option String
  logo : Option String
  screenshots : Option (List String)
deriving Repr, DecidableEq

/-- One Zod issue: the dotted path and the message. -/
structure ZodIssue where
  path : String
  message : String
deriving Repr, DecidableEq

/-- A required `z.string().min(1, minMsg).max(maxLen, maxMsg)` field:
missing yields Zod's `Required`, a present string collects each failing
bound's custom message. -/
def checkRequiredString (fieldName : String) (v : Option String)
    (minMsg : String) (maxLen : Nat) (maxMsg : String) : List ZodIssue :=
  match v with
  | none => [⟨fieldName, "Required"⟩]
  | some s =>
    (if s.length < 1 then [⟨fieldName, minMsg⟩] else []) ++
    (if s.length > maxLen then [⟨fieldName, maxMsg⟩] else [])

/-- The `slug` field: required string, bounds, then the regex check. -/
def checkSlug (v : Option String) : List ZodIssue :=
  match v with
  | none => [⟨"slug", "Required"⟩]
  | some s =>
    (if s.length < 1 then [⟨"slug", "Slug is required"⟩] else []) ++
    (if s.length > 100 then [⟨"slug", "Slug must be 100 characters or less"⟩] else []) ++
    (if slugMatches s = false then
      [⟨"slug", "Slug must be lowercase alphanumeric with hyphens"⟩] else [])

/-- The `category` field: required member of the closed enumeration (the
message stands for Zod's default invalid-enum-value report). -/
def checkCategory (v : Option String) : List ZodIssue :=
  match v with
  | none => [⟨"category", "Required"⟩]
  | some s => if CATEGORIES.contains s then [] else [⟨"category", "Invalid enum value"⟩]

/-- The `repo` field: `z.string().refine(url => validateGitHubUrl(url) !== null)`. -/
def checkRepo (v : Option String) : List ZodIssue :=
  match v with
  | none => [⟨"repo", "Required"⟩]
  | some s =>
    if validateGitHubUrl (some s) = none then
      [⟨"repo", "Invalid GitHub repository URL"⟩] else []

/-- The `verusFeatures` field: required array, `min(1)` check, then each
element checked against the feature enumeration (path `verusFeatures.i`). -/
def checkVerusFeatures (v : Option (List String)) : List ZodIssue :=
  match v with
  | none => [⟨"verusFeatures", "Required"⟩]
  | some l =>
    (if l.length < 1 then
      [⟨"verusFeatures", "At least one Verus feature is required"⟩] else []) ++
    (l.enum.filterMap (fun fi =>
      if VERUS_FEATURES.contains fi.2 then none
      else some ⟨"verusFeatures." ++ toString fi.1, "Invalid enum value"⟩))

/-- An optional bounded string field. -/
def checkOptionalString (fieldName : String) (v : Option String)
    (maxLen : Nat) (maxMsg : String) : List ZodIssue :=
  match v with
  | none => []
  | some s => if s.length > maxLen then [⟨fieldName, maxMsg⟩] else []

/-- An optional `SafeUrlSchema` field:
`z.string().refine(url => validateExternalUrl(url) !== null)`. -/
def checkOptionalSafeUrl (fieldName : String) (v : Option String) : List ZodIssue :=
  match v with
  | none => []
  | some s =>
    if validateExternalUrl (some s) = none then
      [⟨fieldName, "Invalid or unsafe URL"⟩] else []

/-- The optional `screenshots` field: array bound, then element bounds. -/
def checkScreenshots (v : Option (List String)) : List ZodIssue :=
  match v with
  | none => []
  | some l =>
    (if l.length > 10 then [⟨"screenshots", "Maximum 10 screenshots allowed"⟩] else []) ++
    (l.enum.filterMap (fun fi =>
      if fi.2.length > 100 then
        some ⟨"screenshots." ++ toString fi.1,
          "Screenshot filename must be 100 characters or less"⟩
      else none))

/-- All issues of `ProjectYAMLSchema.safeParse`, in the schema's field order. -/
def projectYAMLIssues (r : RawProject) : List ZodIssue :=
  checkRequiredString "name" r.name "Name is required" 100
    "Name must be 100 characters or less" ++
  checkSlug r.slug ++
  checkRequiredString "description" r.description "Description is required" 200
    "Description must be 200 characters or less" ++
  checkRequiredString "longDescription" r.longDescription "Long description is required" 10000
    "Long description must be 10000 characters or less" ++
  checkCategory r.category ++
  checkRepo r.repo ++
  checkVerusFeatures r.verusFeatures ++
  checkOptionalString "maintainer" r.maintainer 100
    "Maintainer must be 100 characters or less" ++
  checkOptionalSafeUrl "liveUrl" r.liveUrl ++
  checkOptionalSafeUrl "docsUrl" r.docsUrl ++
  checkOptionalString "logo" r.logo 100
    "Logo filename must be 100 characters or less" ++
  checkScreenshots r.screenshots

/-- One line of the thrown message: `  - ${issue.path.join('.')}: ${issue.message}`. -/
def issueLine (i : ZodIssue) : String := "  - " ++ i.path ++ ": " ++ i.message

/-- `Array.prototype.join('\n')`. -/
def joinLines : List String → String
  | [] => ""
  | [l] => l
  | l :: rest => l ++ "\n" ++ joinLines rest

/-- The typed record produced on success (`result.data`). -/
def buildValidated (r : RawProject) : ProjectYAML :=
  { name := r.name.getD "", slug := r.slug.getD "", description := r.description.getD "",
    longDescription := r.longDescription.getD "", category := r.category.getD "",
    repo := r.repo.getD "", verusFeatures := r.verusFeatures.getD [],
    maintainer := r.maintainer, liveUrl := r.liveUrl, docsUrl := r.docsUrl,
    logo := r.logo, screenshots := r.screenshots }

/-- Source: `validateProjectYAML` — `safeParse`, then either the typed data or
a thrown `Error` (modelled as `Except.error`) whose message lists every issue. -/
def validateProjectYAML (r : RawProject) (filename : String) : Except String ProjectYAML :=
  if (projectYAMLIssues r).isEmpty then .ok (buildValidated r)
  else .error ("Invalid project YAML in " ++ filename ++ ":\n" ++
    joinLines ((projectYAMLIssues r).map issueLine))

/-- A record missing two required fields (`name`, `description`) whose `repo`
carries a dangerous URL scheme. -/
def badRawProject : RawProject :=
  { name := none, slug := some "x", description := none, longDescription := some "d",
    category := some "app", repo := some "javascript:alert(1)",
    verusFeatures := some ["Data"], maintainer := none, liveUrl := none,
    docsUrl := none, logo := none, screenshots := none }

/-- Concrete data for the witness instantiations. -/
def witnessProject : Project :=
  { name := "A", slug := "a", description := "d", longDescription := "ld",
    category := "app", repo := "https://github.com/o/a", verusFeatures := ["Data"],
    liveUrl := none, docsUrl := none, maintainer := "o", logo := none,
    screenshots := [], github := none }

def witnessToolProject : Project :=
  { witnessProject with category := "tool", slug := "t" }

def allTrueImg : String → Bool := fun _ => true

def witnessYaml : ProjectYAML :=
  { name := "A", slug := "a", description := "d", longDescription := "ld",
    category := "app", repo := "https://github.com/o/a", verusFeatures := ["Data"],
    maintainer := none, liveUrl := none, docsUrl := none, logo := none,
    screenshots := none }

/-- A record whose repository URL does not match the GitHub pattern. -/
def witnessBadYaml : ProjectYAML := { witnessYaml with repo := "nope", slug := "b" }

/-- A world in which both requests reject at the network level. -/
def emptyWorld : FetchWorld := { repoReq := .error (), langReq := .error () }

def noNet : String → FetchWorld := fun _ => emptyWorld

def noLogo : String → Option String := fun _ => none

def noShots : String → List String := fun _ => []

def witnessRepoJson : RepoJson :=
  { stargazers_count := some 5, forks_count := some 2,
    pushed_at := some "2024-01-01T00:00:00Z", license_spdx := some "MIT" }

/-- A world in which the summary request fully succeeds but the language
request rejects at the network level. -/
def langFailWorld : FetchWorld :=
  { repoReq := .ok { ok := true, status := 200, body := .ok witnessRepoJson },
    langReq := .error () }

/-- A world in which the summary request fully succeeds and the language
request completes with a non-success HTTP status. -/
def langStatusFailWorld : FetchWorld :=
  { repoReq := .ok { ok := true, status := 200, body := .ok witnessRepoJson },
    langReq := .ok { ok := false, body := .ok ["TypeScript"] } }

/-! ### Arithmetic lemmas about the 32-bit embedding -/

theorem toInt32_mod (a : Int) : toInt32 a % 4294967296 = a % 4294967296 := by
  unfold toInt32; omega

theorem toInt32_congr {a b : Int} (h : a % 4294967296 = b % 4294967296) :
    toInt32 a = toInt32 b := by
  unfold toInt32; omega

theorem mulberryMix_mod (x : Nat) : mulberryMix (x % 4294967296) = mulberryMix x := by
  unfold mulberryMix
  simp [Nat.mod_mod_of_dvd _ dvd_rfl]

theorem xor_lt_two32 {a b : Nat} (ha : a < 4294967296) (hb : b < 4294967296) :
    a ^^^ b < 4294967296 := by
  have h32 : (4294967296 : Nat) = 2 ^ 32 := by norm_num
  rw [h32] at ha hb ⊢
  exact Nat.xor_lt_two_pow ha hb

theorem mulberryMix_lt (x : Nat) : mulberryMix x < 4294967296 := by
  have final : ∀ t2 : Nat, t2 < 4294967296 → t2 ^^^ (t2 >>> 14) < 4294967296 := by
    intro t2 h
    refine xor_lt_two32 h (lt_of_le_of_lt ?_ h)
    rw [Nat.shiftRight_eq_div_pow]
    exact Nat.div_le_self _ _
  simp only [mulberryMix]
  exact final _ (xor_lt_two32 (Nat.mod_lt _ (by norm_num)) (Nat.mod_lt _ (by norm_num)))

/-- The floor computation of the shuffle: `floor(random() * (i + 1))` over the
rationals coincides with the integer computation `t * (i + 1) / 2^32`. -/
theorem floor_random_scale_eq (t k : Nat) :
    Nat.floor ((t : ℚ) / 4294967296 * k) = t * k / 4294967296 := by
  have h : (t : ℚ) / 4294967296 * k = ((t * k : Nat) : ℚ) / ((4294967296 : Nat) : ℚ) := by
    push_cast; ring
  rw [h, Nat.floor_div_nat, Nat.floor_natCast]

/-! ### The shuffle is a permutation -/

theorem cons_set_perm (t : List α) (m : Nat) (x y : α) (h : t[m]? = some x) :
    List.Perm (x :: t.set m y) (y :: t) := by
  induction t generalizing m with
  | nil => simp at h
  | cons c t ih =>
    cases m with
    | zero =>
      simp only [List.getElem?_cons_zero, Option.some.injEq] at h
      subst h
      exact List.Perm.swap _ _ _
    | succ m =>
      simp only [List.getElem?_cons_succ] at h
      have h1 : List.Perm (x :: c :: t.set m y) (c :: x :: t.set m y) := List.Perm.swap c x _
      have h2 : List.Perm (c :: x :: t.set m y) (c :: y :: t) := List.Perm.cons c (ih m h)
      have h3 : List.Perm (c :: y :: t) (y :: c :: t) := List.Perm.swap y c t
      exact (h1.trans h2).trans h3

theorem set_set_perm (l : List α) (i j : Nat) {a b : α}
    (hi : l[i]? = some a) (hj : l[j]? = some b) :
    List.Perm ((l.set i b).set j a) l := by
  induction l generalizing i j with
  | nil => simp at hi
  | cons c t ih =>
    cases i with
    | zero =>
      simp only [List.getElem?_cons_zero, Option.some.injEq] at hi
      subst hi
      cases j with
      | zero => simp
      | succ j =>
        simp only [List.getElem?_cons_succ] at hj
        simpa using cons_set_perm t j _ _ hj
    | succ i =>
      simp only [List.getElem?_cons_succ] at hi
      cases j with
      | zero =>
        simp only [List.getElem?_cons_zero, Option.some.injEq] at hj
        subst hj
        simpa using cons_set_perm t i _ _ hi
      | succ j =>
        simp only [List.getElem?_cons_succ] at hj
        simpa using List.Perm.cons c (ih i j hi hj)

theorem listSwap_perm (l : List α) (i j : Nat) : List.Perm (listSwap l i j) l := by
  unfold listSwap
  split
  · next a b hi hj => exact set_set_perm l i j hi hj
  · exact List.Perm.refl l

theorem fyLoop_perm (n : Nat) : ∀ (l : List α) (s : Nat), List.Perm (fyLoop n l s) l := by
  induction n with
  | zero => intro l s; exact List.Perm.refl l
  | succ m ih =>
    intro l s
    exact (ih _ _).trans (listSwap_perm l (m + 1) _)

/-! ### Refinement lemmas: spec formulations equal the source embedding -/

theorem hashStep_eq_specHashStep : hashStep = specHashStep := by
  funext h c
  unfold hashStep specHashStep
  refine toInt32_congr ?_
  have := toInt32_mod (h * 32)
  omega

theorem mulberryMix_congr {s t : Nat} (h : s % 4294967296 = t % 4294967296) :
    mulberryMix s = mulberryMix t := by
  rw [← mulberryMix_mod s, h, mulberryMix_mod]

theorem randStream_congr (k : Nat) :
    ∀ s t : Nat, s % 4294967296 = t % 4294967296 →
      randStream seededRandomNext s k = randStream specMulberryNext t k := by
  induction k with
  | zero =>
    intro s t h
    simp only [randStream, seededRandomNext, specMulberryNext]
    exact mulberryMix_congr (by omega)
  | succ k ih =>
    intro s t h
    simp only [randStream, seededRandomNext, specMulberryNext]
    exact ih _ _ (by omega)

theorem specDraw_eq (t n : Nat) : specDraw t n = t * n / 4294967296 :=
  floor_random_scale_eq t n

theorem fyLoopWith_zero (next : Nat → Nat × Nat) (draw : Nat → Nat → Nat)
    (l : List α) (s : Nat) : fyLoopWith next draw 0 l s = l := rfl

theorem fyLoopWith_succ (next : Nat → Nat × Nat) (draw : Nat → Nat → Nat)
    (m : Nat) (l : List α) (s : Nat) :
    fyLoopWith next draw (m + 1) l s =
      fyLoopWith next draw m
        (listSwap l (m + 1) (draw (next s).1 (m + 2))) (next s).2 := rfl

theorem fyLoop_succ (m : Nat) (l : List α) (s : Nat) :
    fyLoop (m + 1) l s =
      fyLoop m (listSwap l (m + 1) ((seededRandomNext s).1 * (m + 2) / 4294967296))
        (seededRandomNext s).2 := rfl

theorem fyLoop_eq_specFyLoop (n : Nat) :
    ∀ (l : List α) (s t : Nat), s % 4294967296 = t % 4294967296 →
      fyLoop n l s = specFyLoop n l t := by
  induction n with
  | zero => intro l s t _; rfl
  | succ m ih =>
    intro l s t h
    have hmix : mulberryMix (s + 0x6D2B79F5) = mulberryMix ((t + 0x6D2B79F5) % 4294967296) :=
      mulberryMix_congr (by omega)
    rw [fyLoop_succ, specFyLoop, fyLoopWith_succ]
    simp only [seededRandomNext, specMulberryNext, specDraw_eq]
    rw [hmix]
    exact ih _ _ _ (by omega)

theorem dateHash_eq_specDateHash : dateHash = specDateHash := by
  funext cs
  unfold dateHash specDateHash
  rw [hashStep_eq_specHashStep]

theorem randStream_lt (k : Nat) : ∀ s : Nat, randStream seededRandomNext s k < 4294967296 := by
  induction k with
  | zero => intro s; exact mulberryMix_lt _
  | succ k ih => intro s; exact ih _

theorem seededShuffle_perm (l : List α) (s : Nat) : List.Perm (seededShuffle l s) l :=
  fyLoop_perm _ l s

theorem seededShuffle_length (l : List α) (s : Nat) :
    (seededShuffle l s).length = l.length :=
  (seededShuffle_perm l s).length_eq

theorem mem_featured_eligible {ps : List Project} {hasImg : String → Bool} {y m d : Nat}
    {p : Project} (hp : p ∈ getFeaturedProjects ps hasImg y m d) :
    isFeaturedEligible hasImg p = true := by
  simp only [getFeaturedProjects] at hp
  split at hp
  · simp at hp
  · have h1 : p ∈ seededShuffle (ps.filter (isFeaturedEligible hasImg)) (getDailySeed y m d) :=
      List.mem_of_mem_take hp
    have h2 : p ∈ ps.filter (isFeaturedEligible hasImg) :=
      ((seededShuffle_perm _ _).mem_iff).mp h1
    exact (List.mem_filter.mp h2).2

/-! ### Claim theorems: the shuffle machinery -/

/-- C10: for every input list and every seed, `seededShuffle` returns a
permutation of its input — same length and same elements with the same
multiplicities.  (The embedding is over immutable lists, mirroring the copy
`const result = [...array]`: the input value itself is unchanged by
construction.) -/
theorem seededShuffle_is_permutation [DecidableEq α] (l : List α) (seed : Nat) :
    List.Perm (seededShuffle l seed) l ∧
    (seededShuffle l seed).length = l.length ∧
    ∀ a : α, (seededShuffle l seed).count a = l.count a := by
  have hp : List.Perm (seededShuffle l seed) l := fyLoop_perm _ l seed
  exact ⟨hp, hp.length_eq, fun a => hp.count_eq a⟩

/-- C1: the featured-selection pipeline implements exactly the specified
algorithm.  The daily seed equals the absolute value of the 32-bit rolling hash
`hash = ((hash << 5) - hash + charCode) | 0` of the string
`"{year}-{zeroBasedMonth}-{day}"` (conjuncts 1, 2 and 6); the generator is
mulberry32 — its whole output stream coincides with that of the canonical
32-bit-state mulberry32, and every output is an unsigned 32-bit value, so
dividing by `2^32` lands in `[0,1)` (conjuncts 3 and 4); and the shuffle is
Fisher–Yates with `j = floor(random() * (i + 1))` drawn as an exact rational
floor (conjunct 5, via `specShuffle`/`specDraw`). -/
theorem featured_pipeline_matches_spec :
    (∀ y m d : Nat, getDailySeed y m d = specDailySeed y m d) ∧
    (∀ cs : List Nat, dateHash cs = specDateHash cs) ∧
    (∀ seed k : Nat, randStream seededRandomNext seed k = randStream specMulberryNext seed k) ∧
    (∀ seed k : Nat, randStream seededRandomNext seed k < 4294967296) ∧
    (∀ (α : Type) (l : List α) (seed : Nat), seededShuffle l seed = specShuffle l seed) ∧
    dateString 2024 0 15 = "2024-0-15".data.map Char.toNat := by
  refine ⟨?_, ?_, ?_, ?_, ?_, ?_⟩
  · intro y m d
    unfold getDailySeed specDailySeed
    rw [dateHash_eq_specDateHash]
  · intro cs
    rw [dateHash_eq_specDateHash]
  · intro seed k
    exact randStream_congr k seed seed rfl
  · intro seed k
    exact randStream_lt k seed
  · intro α l seed
    exact fyLoop_eq_specFyLoop _ l seed seed rfl
  · decide

/-! ### Claim theorems: featured selection -/

/-- C6: for every aggregated project collection, featured-image oracle and UTC
date, `getFeaturedProjects` returns exactly `min 3 |eligible|` projects —
3 when at least 3 are eligible, fewer when fewer are eligible, and the empty
sequence when none is. -/
theorem getFeaturedProjects_card (allProjects : List Project) (hasImg : String → Bool)
    (y m d : Nat) :
    (getFeaturedProjects allProjects hasImg y m d).length =
      min 3 (allProjects.filter (isFeaturedEligible hasImg)).length := by
  simp only [getFeaturedProjects]
  split
  · next h => rw [List.isEmpty_iff.mp h]; rfl
  · next h => rw [List.length_take, seededShuffle_length]

/-- C5: every project returned by `getFeaturedProjects` has an eligible
category (`app`, `wallet` or `dashboard`) and a featured image for its slug;
a `tool` project is never selected; an `app` project without the featured
asset is never selected; and flipping only the category of a project with the
asset from `tool` to `app` moves it from ineligible to eligible. -/
theorem getFeaturedProjects_eligibility :
    (∀ (ps : List Project) (hasImg : String → Bool) (y m d : Nat) (p : Project),
        p ∈ getFeaturedProjects ps hasImg y m d →
        FEATURED_ELIGIBLE_CATEGORIES.contains p.category = true ∧ hasImg p.slug = true) ∧
    (∀ (ps : List Project) (hasImg : String → Bool) (y m d : Nat) (p : Project),
        p ∈ getFeaturedProjects ps hasImg y m d → p.category ≠ "tool") ∧
    (∀ (ps : List Project) (hasImg : String → Bool) (y m d : Nat) (p : Project),
        p.category = "app" → hasImg p.slug = false →
        p ∉ getFeaturedProjects ps hasImg y m d) ∧
    (∀ (p : Project) (hasImg : String → Bool), hasImg p.slug = true →
        isFeaturedEligible hasImg { p with category := "tool" } = false ∧
        isFeaturedEligible hasImg { p with category := "app" } = true) := by
  have key : ∀ (ps : List Project) (hasImg : String → Bool) (y m d : Nat) (p : Project),
      p ∈ getFeaturedProjects ps hasImg y m d →
      FEATURED_ELIGIBLE_CATEGORIES.contains p.category = true ∧ hasImg p.slug = true := by
    intro ps hasImg y m d p hp
    have := mem_featured_eligible hp
    unfold isFeaturedEligible at this
    rw [Bool.and_eq_true] at this
    exact this
  refine ⟨key, ?_, ?_, ?_⟩
  · intro ps hasImg y m d p hp heq
    have hc := (key ps hasImg y m d p hp).1
    rw [heq] at hc
    simp [FEATURED_ELIGIBLE_CATEGORIES] at hc
  · intro ps hasImg y m d p hcat himg hp
    have := (key ps hasImg y m d p hp).2
    rw [himg] at this
    exact Bool.false_ne_true this
  · intro p hasImg himg
    constructor
    · simp [isFeaturedEligible, FEATURED_ELIGIBLE_CATEGORIES]
    · simp [isFeaturedEligible, FEATURED_ELIGIBLE_CATEGORIES, himg]

theorem getFeaturedProjects_eligibility_witness :
    (FEATURED_ELIGIBLE_CATEGORIES.contains witnessProject.category = true ∧
      allTrueImg witnessProject.slug = true) ∧
    witnessProject.category ≠ "tool" ∧
    (isFeaturedEligible allTrueImg { witnessProject with category := "tool" } = false ∧
      isFeaturedEligible allTrueImg { witnessProject with category := "app" } = true) := by
  refine ⟨?_, ?_, ?_⟩
  · exact getFeaturedProjects_eligibility.1 [witnessProject] allTrueImg 2024 0 15
      witnessProject (by decide)
  · exact getFeaturedProjects_eligibility.2.1 [witnessProject] allTrueImg 2024 0 15
      witnessProject (by decide)
  · exact getFeaturedProjects_eligibility.2.2.2 witnessProject allTrueImg rfl

/-- C2: determinism of featured selection — the output is a pure function of
the date components and the eligible list: whenever two aggregated collections
and asset oracles induce the same eligible list, the featured selection on the
same UTC date is identical.  (In particular two runs on identical inputs agree:
the selection depends on no other state.) -/
theorem getFeaturedProjects_deterministic
    (y m d : Nat) (ps1 ps2 : List Project) (img1 img2 : String → Bool)
    (h : ps1.filter (isFeaturedEligible img1) = ps2.filter (isFeaturedEligible img2)) :
    getFeaturedProjects ps1 img1 y m d = getFeaturedProjects ps2 img2 y m d := by
  simp only [getFeaturedProjects]
  rw [h]

theorem getFeaturedProjects_deterministic_witness :
    getFeaturedProjects [witnessProject] allTrueImg 2024 0 15 =
      getFeaturedProjects [witnessProject, witnessToolProject] allTrueImg 2024 0 15 :=
  getFeaturedProjects_deterministic 2024 0 15 _ _ _ _ (by decide)

/-! ### Claim theorems: the metadata fetcher -/

theorem fetchGitHubDataE_ok (url : String) (w : FetchWorld) :
    fetchGitHubDataE url w = .ok (fetchGitHubData url w) := by
  unfold fetchGitHubDataE fetchGitHubData
  cases parseGitHubUrl url with
  | none => rfl
  | some pr =>
    cases fetchGitHubBody w with
    | ok v => rfl
    | error e => rfl

/-- C4: the Metadata Fetcher never raises to its caller: with the exception
channel explicit, the result is always `Except.ok` and equals the plain
returned value (conjunct 1), and each failure mode — URL parse failure,
network rejection of either request, non-success HTTP status (including the
throttling statuses 403 and 429), and a malformed body of either response —
degrades to the `null` result (remaining conjuncts). -/
theorem fetchGitHubData_never_raises :
    ∀ (url : String) (w : FetchWorld),
      fetchGitHubDataE url w = .ok (fetchGitHubData url w) ∧
      (parseGitHubUrl url = none → fetchGitHubData url w = none) ∧
      (w.repoReq = .error () → fetchGitHubData url w = none) ∧
      (w.langReq = .error () → fetchGitHubData url w = none) ∧
      (∀ res : RepoResponse, w.repoReq = .ok res → res.ok = false →
        fetchGitHubData url w = none) ∧
      (∀ res : RepoResponse, w.repoReq = .ok res → res.ok = false →
        res.status = 403 ∨ res.status = 429 → fetchGitHubData url w = none) ∧
      (∀ res : RepoResponse, w.repoReq = .ok res → res.body = .error () →
        fetchGitHubData url w = none) ∧
      (∀ (res : RepoResponse) (lres : LangResponse), w.repoReq = .ok res →
        w.langReq = .ok lres → lres.ok = true → lres.body = .error () →
        fetchGitHubData url w = none) := by
  intro url w
  obtain ⟨rq, lq⟩ := w
  refine ⟨fetchGitHubDataE_ok url ⟨rq, lq⟩, ?_, ?_, ?_, ?_, ?_, ?_, ?_⟩
  · intro h
    simp [fetchGitHubData, h]
  · intro h
    simp only at h
    cases hp : parseGitHubUrl url <;>
      simp [fetchGitHubData, fetchGitHubBody, h, hp]
  · intro h
    simp only at h
    cases hp : parseGitHubUrl url <;> cases rq <;>
      simp [fetchGitHubData, fetchGitHubBody, h, hp]
  · intro res hr hok
    simp only at hr
    cases hp : parseGitHubUrl url <;> cases lq <;>
      simp [fetchGitHubData, fetchGitHubBody, hr, hok, hp]
  · intro res hr hok _
    simp only at hr
    cases hp : parseGitHubUrl url <;> cases lq <;>
      simp [fetchGitHubData, fetchGitHubBody, hr, hok, hp]
  · intro res hr hb
    simp only at hr
    obtain ⟨rok, rst, rbody⟩ := res
    simp only at hb
    cases hp : parseGitHubUrl url <;> cases lq <;> cases rok <;>
      simp [fetchGitHubData, fetchGitHubBody, hr, hb, hp]
  · intro res lres hr hl hok hb
    simp only at hr hl
    obtain ⟨rok, rst, rbody⟩ := res
    cases hp : parseGitHubUrl url <;> cases rok <;> cases rbody <;>
      simp [fetchGitHubData, fetchGitHubBody, hr, hl, hok, hb, hp]

theorem fetchGitHubData_never_raises_witness :
    fetchGitHubData "nope" emptyWorld = none ∧
    fetchGitHubData "https://github.com/o/a" emptyWorld = none := by
  constructor
  · exact (fetchGitHubData_never_raises "nope" emptyWorld).2.1 (by decide)
  · exact (fetchGitHubData_never_raises "https://github.com/o/a" emptyWorld).2.2.1 rfl

/-- C7 counterexample: in `langFailWorld` the repository-summary request fully
succeeds (network ok, status 200, well-formed body) while the language request
fails by rejecting at the network level; `fetchGitHubData` then returns `null`
— not, as the claim states, a metadata value with an empty languages list
(`Promise.all` rejects when either request rejects, discarding the summary). -/
theorem fetch_lang_reject_counterexample :
    langFailWorld.repoReq =
      .ok { ok := true, status := 200, body := .ok witnessRepoJson } ∧
    langFailWorld.langReq = .error () ∧
    fetchGitHubData "https://github.com/o/a" langFailWorld = none ∧
    ¬ ∃ md : GitHubData,
        fetchGitHubData "https://github.com/o/a" langFailWorld = some md ∧
        md.languages = [] := by
  have hnone : fetchGitHubData "https://github.com/o/a" langFailWorld = none := by decide
  refine ⟨rfl, rfl, hnone, ?_⟩
  rintro ⟨md, hmd, _⟩
  rw [hnone] at hmd
  exact Option.noConfusion hmd

/-- C7 amended: if the summary request does not succeed, the result is `null`
even when the language request completed (conjunct 1); if the summary fully
succeeds and the language request completes with a non-success HTTP status,
the result is metadata with an empty languages list (conjunct 2); if the
language request rejects at the network level, or completes successfully with
a malformed body, the whole result is `null` (conjuncts 3 and 4); and the
returned metadata is never partially populated in any other way: any returned
value is built entirely from a successfully parsed summary body, with
languages either empty or exactly the keys of a successfully parsed language
body (conjunct 5). -/
theorem fetchGitHubData_partial_failure_policy :
    ∀ (url : String) (w : FetchWorld),
      (∀ (res : RepoResponse) (lres : LangResponse), w.repoReq = .ok res →
        res.ok = false → w.langReq = .ok lres → fetchGitHubData url w = none) ∧
      (∀ (pr : String × String) (res : RepoResponse) (lres : LangResponse) (j : RepoJson),
        parseGitHubUrl url = some pr → w.repoReq = .ok res → res.ok = true →
        res.body = .ok j → w.langReq = .ok lres → lres.ok = false →
        fetchGitHubData url w =
          some { stars := j.stargazers_count.getD 0, forks := j.forks_count.getD 0,
                 lastCommit := j.pushed_at.getD "", license := jsOrNullStr j.license_spdx,
                 languages := [] }) ∧
      (w.langReq = .error () → fetchGitHubData url w = none) ∧
      (∀ lres : LangResponse, w.langReq = .ok lres → lres.ok = true →
        lres.body = .error () → fetchGitHubData url w = none) ∧
      (∀ md : GitHubData, fetchGitHubData url w = some md →
        ∃ (pr : String × String) (res : RepoResponse) (j : RepoJson),
          parseGitHubUrl url = some pr ∧ w.repoReq = .ok res ∧ res.ok = true ∧
          res.body = .ok j ∧
          md.stars = j.stargazers_count.getD 0 ∧ md.forks = j.forks_count.getD 0 ∧
          md.lastCommit = j.pushed_at.getD "" ∧ md.license = jsOrNullStr j.license_spdx ∧
          (md.languages = [] ∨ ∃ lres : LangResponse,
            w.langReq = .ok lres ∧ lres.ok = true ∧ lres.body = .ok md.languages)) := by
  intro url w
  obtain ⟨rq, lq⟩ := w
  refine ⟨?_, ?_, ?_, ?_, ?_⟩
  · intro res lres hr hok hl
    simp only at hr hl
    cases hp : parseGitHubUrl url <;>
      simp [fetchGitHubData, fetchGitHubBody, hr, hl, hok, hp]
  · intro pr res lres j hp hr hok hb hl hlok
    simp only at hr hl
    obtain ⟨rok, rst, rbody⟩ := res
    simp only at hok hb
    subst hok hb
    simp [fetchGitHubData, fetchGitHubBody, hr, hl, hlok, hp]
  · intro hl
    simp only at hl
    cases hp : parseGitHubUrl url <;> cases rq <;>
      simp [fetchGitHubData, fetchGitHubBody, hl, hp]
  · intro lres hl hlok hb
    simp only at hl
    cases hp : parseGitHubUrl url with
    | none => simp [fetchGitHubData, hp]
    | some pr =>
      cases rq with
      | error e => simp [fetchGitHubData, fetchGitHubBody, hl, hp]
      | ok res =>
        obtain ⟨rok, rst, rbody⟩ := res
        cases rok <;> cases rbody <;>
          simp [fetchGitHubData, fetchGitHubBody, hl, hlok, hb, hp]
  · intro md hmd
    unfold fetchGitHubData at hmd
    cases hp : parseGitHubUrl url with
    | none => rw [hp] at hmd; exact Option.noConfusion hmd
    | some pr =>
      rw [hp] at hmd
      cases hbody : fetchGitHubBody ⟨rq, lq⟩ with
      | error e => rw [hbody] at hmd; exact Option.noConfusion hmd
      | ok v =>
        rw [hbody] at hmd
        cases rq with
        | error e => simp [fetchGitHubBody] at hbody
        | ok res =>
          cases lq with
          | error e => simp [fetchGitHubBody] at hbody
          | ok lres =>
            obtain ⟨rok, rst, rbody⟩ := res
            cases rok with
            | false =>
              simp [fetchGitHubBody] at hbody
              rw [← hbody] at hmd
              exact Option.noConfusion hmd
            | true =>
              cases rbody with
              | error e => simp [fetchGitHubBody] at hbody
              | ok j =>
                cases hlok : lres.ok with
                | false =>
                  simp [fetchGitHubBody, hlok] at hbody
                  rw [← hbody] at hmd
                  injection hmd with hmd
                  refine ⟨pr, ⟨true, rst, Except.ok j⟩, j, rfl, rfl, rfl, rfl,
                    ?_, ?_, ?_, ?_, ?_⟩ <;> rw [← hmd]
                  exact Or.inl rfl
                | true =>
                  cases hlb : lres.body with
                  | error e => simp [fetchGitHubBody, hlok, hlb] at hbody
                  | ok langs =>
                    simp [fetchGitHubBody, hlok, hlb] at hbody
                    rw [← hbody] at hmd
                    injection hmd with hmd
                    refine ⟨pr, ⟨true, rst, Except.ok j⟩, j, rfl, rfl, rfl, rfl,
                      ?_, ?_, ?_, ?_, ?_⟩ <;> rw [← hmd]
                    exact Or.inr ⟨lres, rfl, hlok, hlb⟩

theorem fetchGitHubData_partial_failure_policy_witness :
    fetchGitHubData "https://github.com/o/a" langStatusFailWorld =
      some { stars := 5, forks := 2, lastCommit := "2024-01-01T00:00:00Z",
             license := some "MIT", languages := [] } := by
  have h := (fetchGitHubData_partial_failure_policy "https://github.com/o/a"
      langStatusFailWorld).2.1 ("o", "a")
    { ok := true, status := 200, body := .ok witnessRepoJson }
    { ok := false, body := .ok ["TypeScript"] } witnessRepoJson
    (by decide) rfl rfl rfl rfl rfl
  exact h.trans (by decide)

/-! ### Claim theorems: the aggregator -/

/-- C3: aggregator cardinality and identity preservation.  For every record
store and all oracles, `getAllProjects` returns exactly one `Project` per
input record, positionally aligned with the input (conjunct 2) and preserving
each record's identity (slugs, conjunct 3); in particular the lengths agree
(conjunct 1).  A record whose repository URL fails to parse, or whose fetch
attempt dies on the network, still yields its project with `github = none`
(conjuncts 4 and 5) — no record is dropped or duplicated, however the fetches
turn out. -/
theorem getAllProjects_cardinality :
    ∀ (records : List ProjectYAML) (net : String → FetchWorld)
      (logoOf : String → Option String) (shotsOf : String → List String),
      (getAllProjects records net logoOf shotsOf).length = records.length ∧
      (∀ i : Nat, (getAllProjects records net logoOf shotsOf)[i]? =
        (records[i]?).map (mkProject net logoOf shotsOf)) ∧
      (∀ i : Nat, ((getAllProjects records net logoOf shotsOf)[i]?).map Project.slug =
        (records[i]?).map ProjectYAML.slug) ∧
      (∀ y : ProjectYAML, parseGitHubUrl y.repo = none →
        (mkProject net logoOf shotsOf y).github = none) ∧
      (∀ y : ProjectYAML, fetchGitHubBody (net y.repo) = .error () →
        (mkProject net logoOf shotsOf y).github = none) := by
  intro records net logoOf shotsOf
  refine ⟨?_, ?_, ?_, ?_, ?_⟩
  · simp [getAllProjects]
  · intro i
    simp [getAllProjects]
  · intro i
    simp only [getAllProjects, List.getElem?_map]
    cases records[i]? with
    | none => rfl
    | some y => simp [mkProject]
  · intro y h
    simp [mkProject, fetchGitHubData, h]
  · intro y h
    cases hp : parseGitHubUrl y.repo <;>
      simp [mkProject, fetchGitHubData, h, hp]

theorem getAllProjects_cardinality_witness :
    (getAllProjects [witnessBadYaml] noNet noLogo noShots).length = 1 ∧
    (mkProject noNet noLogo noShots witnessBadYaml).github = none ∧
    (mkProject noNet noLogo noShots witnessYaml).github = none := by
  refine ⟨?_, ?_, ?_⟩
  · exact (getAllProjects_cardinality [witnessBadYaml] noNet noLogo noShots).1
  · exact (getAllProjects_cardinality [witnessBadYaml] noNet noLogo noShots).2.2.2.1
      witnessBadYaml (by decide)
  · exact (getAllProjects_cardinality [witnessYaml] noNet noLogo noShots).2.2.2.2
      witnessYaml rfl

/-! ### Claim theorems: URL validation -/

/-- C8: the URL Safety Check.  Any input whose trimmed form matches the
dangerous-scheme denylist (case-insensitive prefixes `javascript:`, `data:`,
`vbscript:`, `file:`, `about:`) is rejected (conjunct 1); a URL is returned
only if it is the trimmed input, parses, has protocol `http:` or `https:` and
a non-empty host (conjunct 2); `validateGitHubUrl` additionally requires host
`github.com`/`www.github.com` and at least two non-empty path segments
(conjunct 3); and the specified concrete inputs behave as stated (remaining
conjuncts). -/
theorem url_safety_check :
    (∀ u : String, matchesBlockedPattern (jsTrim u) = true →
      validateExternalUrl (some u) = none) ∧
    (∀ u v : String, validateExternalUrl (some u) = some v →
      v = jsTrim u ∧ ∃ parts : URLParts, parseURL (jsTrim u) = some parts ∧
        ALLOWED_PROTOCOLS.contains parts.protocol = true ∧ parts.hostname ≠ "") ∧
    (∀ u v : String, validateGitHubUrl (some u) = some v →
      ∃ parts : URLParts, parseURL v = some parts ∧
        (parts.hostname = "github.com" ∨ parts.hostname = "www.github.com") ∧
        2 ≤ ((jsSplitSlash parts.pathname).filter (fun s => s ≠ "")).length) ∧
    validateExternalUrl (some "javascript:alert(1)") = none ∧
    validateExternalUrl (some "data:text/html,...") = none ∧
    validateExternalUrl (some "file:///etc/passwd") = none ∧
    validateExternalUrl (some "https://example.com") = some "https://example.com" ∧
    validateExternalUrl (some "http://example.com/path") = some "http://example.com/path" ∧
    validateExternalUrl (some "https://github.com/onlyowner") =
      some "https://github.com/onlyowner" ∧
    validateGitHubUrl (some "https://github.com/onlyowner") = none := by
  refine ⟨?_, ?_, ?_, by decide, by decide, by decide, by decide, by decide,
    by decide, by decide⟩
  · intro u h
    simp only [validateExternalUrl]
    split
    · rfl
    · rw [ite_self]
  · intro u v hv
    simp only [validateExternalUrl] at hv
    split at hv
    · exact absurd hv (by simp)
    · split at hv
      · exact absurd hv (by simp)
      · split at hv
        · exact absurd hv (by simp)
        · split at hv
          · exact absurd hv (by simp)
          · rename_i parsed hp
            split at hv
            · exact absurd hv (by simp)
            · split at hv
              · exact absurd hv (by simp)
              · rename_i h4 h5
                injection hv with hv
                exact ⟨hv.symm, parsed, hp, by simpa using h4, h5⟩
  · intro u v hv
    simp only [validateGitHubUrl] at hv
    split at hv
    · exact absurd hv (by simp)
    · rename_i validated he
      split at hv
      · exact absurd hv (by simp)
      · rename_i parsed hp
        split at hv
        · exact absurd hv (by simp)
        · split at hv
          · exact absurd hv (by simp)
          · rename_i h1 h2
            injection hv with hv
            subst hv
            refine ⟨parsed, hp, ?_, by omega⟩
            rcases not_and_or.mp h1 with h | h
            · exact Or.inl (not_not.mp h)
            · exact Or.inr (not_not.mp h)

theorem joinLines_cons₂ (x y : String) (t : List String) :
    joinLines (x :: y :: t) = x ++ "\n" ++ joinLines (y :: t) := rfl

theorem mem_infix_joinLines {l : String} {ls : List String} (h : l ∈ ls) :
    List.IsInfix l.data (joinLines ls).data := by
  induction ls with
  | nil => simp at h
  | cons x t ih =>
    cases t with
    | nil =>
      rw [List.mem_singleton] at h
      subst h
      exact List.infix_rfl
    | cons y t2 =>
      rcases List.mem_cons.mp h with h | h
      · subst h
        rw [joinLines_cons₂, String.data_append, String.data_append, List.append_assoc]
        exact (List.prefix_append _ _).isInfix
      · refine (ih h).trans ?_
        rw [joinLines_cons₂, String.data_append]
        exact (List.suffix_append _ _).isInfix

theorem url_safety_check_witness :
    validateExternalUrl (some "vbscript:msgbox") = none ∧
    ("https://example.com" = jsTrim "https://example.com" ∧
      ∃ parts : URLParts, parseURL (jsTrim "https://example.com") = some parts ∧
        ALLOWED_PROTOCOLS.contains parts.protocol = true ∧ parts.hostname ≠ "") ∧
    (∃ parts : URLParts, parseURL "https://github.com/o/a" = some parts ∧
      (parts.hostname = "github.com" ∨ parts.hostname = "www.github.com") ∧
      2 ≤ ((jsSplitSlash parts.pathname).filter (fun s => s ≠ "")).length) := by
  refine ⟨?_, ?_, ?_⟩
  · exact url_safety_check.1 "vbscript:msgbox" (by decide)
  · exact url_safety_check.2.1 "https://example.com" "https://example.com" (by decide)
  · exact url_safety_check.2.2.1 "https://github.com/o/a" "https://github.com/o/a" (by decide)

/-! ### Claim theorems: schema validation -/

/-- C9: validation completeness.  `validateProjectYAML` either returns the
validated typed record (exactly when the schema reports no issues) or fails
with a message on which every field-level violation appears with its own line
(conjunct 1); the record missing `name` and `description` and carrying a
`javascript:` repository URL produces exactly those three issues (conjunct 2),
all three listed in the thrown message (conjunct 3). -/
theorem validateProjectYAML_complete :
    (∀ (r : RawProject) (fname : String),
      (projectYAMLIssues r = [] ∧ validateProjectYAML r fname = .ok (buildValidated r)) ∨
      (∃ m : String, validateProjectYAML r fname = .error m ∧
        ∀ i ∈ projectYAMLIssues r, List.IsInfix (issueLine i).data m.data)) ∧
    projectYAMLIssues badRawProject =
      [⟨"name", "Required"⟩, ⟨"description", "Required"⟩,
       ⟨"repo", "Invalid GitHub repository URL"⟩] ∧
    (∃ m : String, validateProjectYAML badRawProject "bad.yaml" = .error m ∧
      List.IsInfix "  - name: Required".data m.data ∧
      List.IsInfix "  - description: Required".data m.data ∧
      List.IsInfix "  - repo: Invalid GitHub repository URL".data m.data) := by
  have main : ∀ (r : RawProject) (fname : String),
      (projectYAMLIssues r = [] ∧ validateProjectYAML r fname = .ok (buildValidated r)) ∨
      (∃ m : String, validateProjectYAML r fname = .error m ∧
        ∀ i ∈ projectYAMLIssues r, List.IsInfix (issueLine i).data m.data) := by
    intro r fname
    cases hI : projectYAMLIssues r with
    | nil =>
      left
      exact ⟨rfl, by simp [validateProjectYAML, hI]⟩
    | cons i t =>
      right
      refine ⟨"Invalid project YAML in " ++ fname ++ ":\n" ++
        joinLines ((projectYAMLIssues r).map issueLine), ?_, ?_⟩
      · simp [validateProjectYAML, hI]
      · intro j hj
        rw [hI]
        refine (mem_infix_joinLines (List.mem_map_of_mem issueLine hj)).trans ?_
        rw [String.data_append]
        exact (List.suffix_append _ _).isInfix
  refine ⟨main, by decide, ?_⟩
  rcases main badRawProject "bad.yaml" with ⟨h, _⟩ | ⟨m, hm, hall⟩
  · exact absurd h (by decide)
  · exact ⟨m, hm, hall ⟨"name", "Required"⟩ (by decide),
      hall ⟨"description", "Required"⟩ (by decide),
      hall ⟨"repo", "Invalid GitHub repository URL"⟩ (by decide)⟩

theorem validateProjectYAML_complete_witness :
    ∃ m : String, validateProjectYAML badRawProject "witness.yaml" = .error m ∧
      List.IsInfix "  - name: Required".data m.data := by
  rcases validateProjectYAML_complete.1 badRawProject "witness.yaml" with
    ⟨h, _⟩ | ⟨m, hm, hall⟩
  · exact absurd h (by decide)
  · exact ⟨m, hm, hall ⟨"name", "Required"⟩ (by decide)⟩

end VerusCommons
